import Mathlib

/-!
Shallow embedding of the adaptive difficulty-adjustment engine of the
exammaster application (Go source: `App.updateQuestionDifficulties` and
`App.SavePracticeSession`), together with theorems settling the frozen
claims about it.

Modelling conventions:
* The Go `float64` accuracy rate `float64(correctCount)/float64(totalQuestions)*100`
  is modelled by exact rational arithmetic (`ℚ`); all comparisons in the band
  table are against integer thresholds, and the claims are stated over the
  rate value itself, so exact rationals are faithful.
* The SQLite store is an abstract map `String → Option ℤ` from question id to
  its optional difficulty (`none` = difficulty column NULL, "never scored").
* Store read failures (`db.GetQuestionByID` returning an error) and write
  failures (`db.UpdateQuestionDifficulty` returning an error) are injected
  through an environment of per-question failure flags.
* Every externally observable action (store read, store write with the value
  passed, log lines, persisting the session row) is recorded in an event
  trace, so that frame and ordering claims can be stated.
* `SavePracticeSession` takes the raw session payload: its `questions` value
  is modelled by shape (absent, present-but-not-an-array, or an array whose
  elements are or are not JSON objects), because the save flow consumes it
  twice — marshalled and re-parsed by the difficulty engine, and directly
  type-asserted by `AddWrongQuestionsFromSession`, whose unchecked assertions
  panic on a present value that is not an array of JSON objects. A panic is
  modelled as a flag on the result: the save stops at that point and the
  session row is never persisted.
-/

namespace ExamMaster

/-- One decoded element of the session's `details` JSON array
(Go: `map[string]interface{}`). A field is `none` when the key is missing or
its value fails the Go type assertion (`q["questionId"].(string)`,
`q["isCorrect"].(bool)`); other keys of the map are irrelevant to the engine. -/
structure Entry where
  questionId : Option String
  isCorrect : Option Bool
deriving DecidableEq, Repr

/-- The fields of the Go `PracticeSession` struct that the difficulty engine
reads. `details` is the decoded per-question array: `none` models a `Details`
payload on which `json.Unmarshal` fails (including a missing payload). The
remaining Go fields (ID, GroupID, Mode, timestamps, Duration) never influence
the engine. -/
structure PracticeSession where
  totalQuestions : ℤ
  correctCount : ℤ
  details : Option (List Entry)

/-- Failure-injection environment for the external store: which question ids
make `db.GetQuestionByID` fail, and which make `db.UpdateQuestionDifficulty`
fail. -/
structure Env where
  readFails : String → Bool
  writeFails : String → Bool

/-- Observable events of one session-save run. `storeWrite` records the
difficulty pointer passed to `db.UpdateQuestionDifficulty` (`none` would be a
nil pointer). `sessionPersist` is the `db.CreatePracticeSession` call that
inserts the completed session row. -/
inductive Event where
  | storeRead (qid : String)
  | storeWrite (qid : String) (val : Option ℤ)
  | logInfo
  | logWarnRead (qid : String)
  | logWarnWrite (qid : String)
  | logUpdated (qid : String)
  | logWarnEngine
  | sessionPersist
deriving DecidableEq, Repr

/-- The store contents together with the trace of events emitted so far. -/
structure EngineState where
  store : String → Option ℤ
  events : List Event

/-- Go: `accuracyRate := float64(session.CorrectCount) / float64(session.TotalQuestions) * 100`. -/
def accuracyRate (session : PracticeSession) : ℚ :=
  (session.correctCount : ℚ) / (session.totalQuestions : ℚ) * 100

/-- Go: the `switch` over `accuracyRate` choosing the session-level
`difficultyAdjustment` (top-down, first match wins). -/
def difficultyAdjustment (rate : ℚ) : ℤ :=
  if rate > 80 then 1
  else if rate ≥ 60 then 0
  else if rate ≥ 40 then -1
  else if rate ≥ 20 then -2
  else -3

/-- Go: `individualAdjustment := difficultyAdjustment` followed by the two
override branches (`isCorrect && accuracyRate <= 60` forces `0`;
`!isCorrect && accuracyRate >= 80` forces `-1`). -/
def individualAdjustment (rate : ℚ) (isCorrect : Bool) : ℤ :=
  if isCorrect = true ∧ rate ≤ 60 then 0
  else if isCorrect = false ∧ rate ≥ 80 then -1
  else difficultyAdjustment rate

/-- Go: the inline clamp `if adjustedDifficulty < 1 { 1 } else if adjustedDifficulty > 5 { 5 }`
applied in both branches of the difficulty update. -/
def clampDifficulty (d : ℤ) : ℤ :=
  if d < 1 then 1 else if d > 5 then 5 else d

/-- Go: computation of the `newDifficulty *int` passed to
`db.UpdateQuestionDifficulty`: clamp `current + individualAdjustment` when the
current difficulty is non-nil, otherwise clamp `3 + individualAdjustment`.
Both branches take the address of a concrete int, so the result is always
`some`. -/
def writtenDifficulty (current : Option ℤ) (adj : ℤ) : Option ℤ :=
  match current with
  | some d => some (clampDifficulty (d + adj))
  | none => some (clampDifficulty (3 + adj))

/-- Go: one iteration of the `for _, q := range questions` loop in
`updateQuestionDifficulties`: type-assert the two fields (skip silently on
failure), read the question (log a warning and skip on failure), compute the
individual adjustment and the clamped new difficulty, then attempt the store
write (warning log on failure, info log and store mutation on success). -/
def processEntry (env : Env) (rate : ℚ) (st : EngineState) (q : Entry) : EngineState :=
  match q.questionId with
  | none => st
  | some questionID =>
    match q.isCorrect with
    | none => st
    | some isCorrect =>
      if env.readFails questionID then
        { st with events := st.events ++ [Event.storeRead questionID, Event.logWarnRead questionID] }
      else
        let adj := individualAdjustment rate isCorrect
        let newDifficulty := writtenDifficulty (st.store questionID) adj
        if env.writeFails questionID then
          { st with events := st.events ++
              [Event.storeRead questionID, Event.storeWrite questionID newDifficulty,
               Event.logWarnWrite questionID] }
        else
          { store := fun q2 => if q2 = questionID then newDifficulty else st.store q2,
            events := st.events ++
              [Event.storeRead questionID, Event.storeWrite questionID newDifficulty,
               Event.logUpdated questionID] }

/-- Go: `App.updateQuestionDifficulties`. Returns immediately when
`TotalQuestions == 0`; errors when the details payload does not decode;
otherwise logs the session accuracy line once and folds the per-entry loop
over the decoded entries. -/
def updateQuestionDifficulties (env : Env) (session : PracticeSession)
    (store0 : String → Option ℤ) : Except String EngineState :=
  if session.totalQuestions = 0 then
    Except.ok ⟨store0, []⟩
  else
    match session.details with
    | none => Except.error "failed to parse session details"
    | some questions =>
      let rate := accuracyRate session
      Except.ok (questions.foldl (processEntry env rate) ⟨store0, [Event.logInfo]⟩)

/-- One element of the raw `questions` array delivered in `sessionData`: a
JSON object (decoded to an `Entry` by the engine's `json.Unmarshal`) or a
non-object value, on which `AddWrongQuestionsFromSession`'s unchecked
assertion `q.(map[string]interface{})` panics. -/
inductive QElem where
  | object (e : Entry)
  | nonObject
deriving DecidableEq, Repr

/-- The raw `sessionData["questions"]` value handed to `SavePracticeSession`:
missing key, present but not an array (the unchecked assertion
`questions.([]interface{})` panics), or an array of elements. -/
inductive QuestionsPayload where
  | absent
  | nonArray
  | array (elems : List QElem)
deriving DecidableEq, Repr

/-- The fields of `sessionData` that the save flow in scope reads. -/
structure SessionData where
  totalQuestions : ℤ
  correctCount : ℤ
  questions : QuestionsPayload

def QElem.isObject : QElem → Bool
  | QElem.object _ => true
  | QElem.nonObject => false

def QElem.entryOf : QElem → Option Entry
  | QElem.object e => some e
  | QElem.nonObject => none

/-- Composition of the `json.Marshal` of `questions` in `SavePracticeSession`
and the `json.Unmarshal` into `[]map[string]interface{}` in
`updateQuestionDifficulties`: the engine obtains a list of entries iff the
payload is present and an array of JSON objects; a missing payload leaves
`Details` nil and a non-array or an array with a non-object element makes the
unmarshal fail. -/
def parseDetails : QuestionsPayload → Option (List Entry)
  | QuestionsPayload.absent => none
  | QuestionsPayload.nonArray => none
  | QuestionsPayload.array elems =>
    if elems.all QElem.isObject then some (elems.filterMap QElem.entryOf)
    else none

/-- The `PracticeSession` struct as `SavePracticeSession` builds it from the
payload before invoking the engine. -/
def toPracticeSession (data : SessionData) : PracticeSession :=
  ⟨data.totalQuestions, data.correctCount, parseDetails data.questions⟩

/-- Go: `App.AddWrongQuestionsFromSession` panics iff the `questions` value is
present but fails one of the unchecked type assertions: it is not an array,
or some element is not a JSON object. Otherwise it only touches the
wrong-question store (out of scope) and always returns nil: its inner
`isCorrect`/`questionId` assertions are ok-checked and store errors are
swallowed by `continue`. -/
def addWrongQuestionsPanics : QuestionsPayload → Bool
  | QuestionsPayload.absent => false
  | QuestionsPayload.nonArray => true
  | QuestionsPayload.array elems => elems.any (fun e => !e.isObject)

/-- Outcome of one save: the difficulty store and trace reached, and whether
the run panicked (aborting before the session row was persisted). -/
structure SaveResult where
  panicked : Bool
  state : EngineState

/-- Go: `App.SavePracticeSession`, restricted to the parts in scope: it calls
`updateQuestionDifficulties` and absorbs any error from it into a warning
log, then runs `AddWrongQuestionsFromSession` — which panics on a
present-but-malformed `questions` payload, aborting the save with the
difficulty mutations already applied — and only then persists the completed
session row via `db.CreatePracticeSession`. -/
def SavePracticeSession (env : Env) (data : SessionData)
    (store0 : String → Option ℤ) : SaveResult :=
  let session := toPracticeSession data
  let st1 : EngineState :=
    match updateQuestionDifficulties env session store0 with
    | Except.ok r => r
    | Except.error _ => ⟨store0, [Event.logWarnEngine]⟩
  if addWrongQuestionsPanics data.questions then
    { panicked := true, state := st1 }
  else
    { panicked := false,
      state := ⟨st1.store, st1.events ++ [Event.sessionPersist]⟩ }

/-- The store effect of one loop iteration, ignoring the event trace: the
store projection of `processEntry`. -/
def stepStore (env : Env) (rate : ℚ) (σ : String → Option ℤ) (q : Entry) :
    String → Option ℤ :=
  match q.questionId with
  | none => σ
  | some questionID =>
    match q.isCorrect with
    | none => σ
    | some isCorrect =>
      if env.readFails questionID then σ
      else if env.writeFails questionID then σ
      else fun q2 =>
        if q2 = questionID then
          writtenDifficulty (σ questionID) (individualAdjustment rate isCorrect)
        else σ q2

lemma processEntry_store (env : Env) (rate : ℚ) (st : EngineState) (q : Entry) :
    (processEntry env rate st q).store = stepStore env rate st.store q := by
  rcases q with ⟨oq, oc⟩
  cases oq with
  | none => rfl
  | some qid =>
    cases oc with
    | none => rfl
    | some c =>
      cases hr : env.readFails qid <;> cases hw : env.writeFails qid <;>
        simp [processEntry, stepStore, hr, hw]

lemma foldl_processEntry_store (env : Env) (rate : ℚ) :
    ∀ (l : List Entry) (st : EngineState),
      (l.foldl (processEntry env rate) st).store
        = l.foldl (stepStore env rate) st.store := by
  intro l
  induction l with
  | nil => intro st; rfl
  | cons e t ih =>
    intro st
    rw [List.foldl_cons, List.foldl_cons, ih, processEntry_store]

/-- The Go inline clamp agrees with the spec's `clamp(x, 1, 5)`. -/
lemma clampDifficulty_eq_clamp (d : ℤ) : clampDifficulty d = max 1 (min 5 d) := by
  unfold clampDifficulty
  split_ifs <;> omega

lemma clampDifficulty_mem (d : ℤ) :
    1 ≤ clampDifficulty d ∧ clampDifficulty d ≤ 5 := by
  unfold clampDifficulty
  split_ifs <;> omega

lemma writtenDifficulty_range (cur : Option ℤ) (adj : ℤ) :
    ∃ v, writtenDifficulty cur adj = some v ∧ 1 ≤ v ∧ v ≤ 5 := by
  cases cur with
  | none => exact ⟨_, rfl, clampDifficulty_mem _⟩
  | some d => exact ⟨_, rfl, clampDifficulty_mem _⟩

lemma stepStore_range (env : Env) (rate : ℚ) (σ : String → Option ℤ)
    (q : Entry) (q2 : String) :
    stepStore env rate σ q q2 = σ q2
    ∨ ∃ v, stepStore env rate σ q q2 = some v ∧ 1 ≤ v ∧ v ≤ 5 := by
  rcases q with ⟨oq, oc⟩
  cases oq with
  | none => exact Or.inl rfl
  | some qid =>
    cases oc with
    | none => exact Or.inl rfl
    | some c =>
      cases hr : env.readFails qid <;> cases hw : env.writeFails qid <;>
        simp [stepStore, hr, hw]
      by_cases hq : q2 = qid
      · subst hq
        simp only [if_pos rfl]
        exact Or.inr (writtenDifficulty_range _ _)
      · simp [hq]

lemma foldl_stepStore_range (env : Env) (rate : ℚ) :
    ∀ (l : List Entry) (σ : String → Option ℤ) (q2 : String),
      l.foldl (stepStore env rate) σ q2 = σ q2
      ∨ ∃ v, l.foldl (stepStore env rate) σ q2 = some v ∧ 1 ≤ v ∧ v ≤ 5 := by
  intro l
  induction l with
  | nil => intro σ q2; exact Or.inl rfl
  | cons e t ih =>
    intro σ q2
    rw [List.foldl_cons]
    rcases ih (stepStore env rate σ e) q2 with h | h
    · rw [h]
      exact stepStore_range env rate σ e q2
    · exact Or.inr h

/-- Unfolding of `updateQuestionDifficulties` on a successful run. -/
lemma updateQuestionDifficulties_ok (env : Env) (s : PracticeSession)
    (store0 : String → Option ℤ) (r : EngineState) :
    updateQuestionDifficulties env s store0 = Except.ok r →
    (s.totalQuestions = 0 ∧ r = ⟨store0, []⟩)
    ∨ (s.totalQuestions ≠ 0 ∧ ∃ l, s.details = some l
        ∧ r = l.foldl (processEntry env (accuracyRate s)) ⟨store0, [Event.logInfo]⟩) := by
  intro hok
  by_cases htq : s.totalQuestions = 0
  · left
    refine ⟨htq, ?_⟩
    rw [updateQuestionDifficulties, if_pos htq] at hok
    exact (Except.ok.inj hok).symm
  · right
    refine ⟨htq, ?_⟩
    rw [updateQuestionDifficulties, if_neg htq] at hok
    cases hd : s.details with
    | none => rw [hd] at hok; exact absurd hok (by simp)
    | some l =>
      rw [hd] at hok
      exact ⟨l, rfl, (Except.ok.inj hok).symm⟩

/-- Forward unfolding of `updateQuestionDifficulties` on a parseable,
nonempty-session input. -/
lemma updateQuestionDifficulties_some (env : Env) (s : PracticeSession)
    (store0 : String → Option ℤ) (l : List Entry)
    (h0 : ¬s.totalQuestions = 0) (hd : s.details = some l) :
    updateQuestionDifficulties env s store0
      = Except.ok
          (l.foldl (processEntry env (accuracyRate s)) ⟨store0, [Event.logInfo]⟩) := by
  rw [updateQuestionDifficulties, if_neg h0, hd]

/-! ## Claim C1: the accuracy band table -/

/-- C1: for every session the base adjustment is determined from
`accuracyRate = correctCount/totalQuestions*100` by the top-down, first-match
band table: `>80 → +1`, `≥60 → 0`, `≥40 → -1`, `≥20 → -2`, else `-3`; in
particular rate exactly 80 gives 0, 60 gives 0, 40 gives -1, 20 gives -2 and
19.999 gives -3. -/
theorem difficultyAdjustment_bands :
    (∀ rate : ℚ,
      (80 < rate → difficultyAdjustment rate = 1)
      ∧ (60 ≤ rate → rate ≤ 80 → difficultyAdjustment rate = 0)
      ∧ (40 ≤ rate → rate < 60 → difficultyAdjustment rate = -1)
      ∧ (20 ≤ rate → rate < 40 → difficultyAdjustment rate = -2)
      ∧ (rate < 20 → difficultyAdjustment rate = -3))
    ∧ difficultyAdjustment 80 = 0
    ∧ difficultyAdjustment 60 = 0
    ∧ difficultyAdjustment 40 = -1
    ∧ difficultyAdjustment 20 = -2
    ∧ difficultyAdjustment (19999 / 1000) = -3
    ∧ (∀ session : PracticeSession,
        accuracyRate session
          = (session.correctCount : ℚ) / (session.totalQuestions : ℚ) * 100) := by
  refine ⟨fun rate => ⟨?_, ?_, ?_, ?_, ?_⟩, ?_, ?_, ?_, ?_, ?_, fun _ => rfl⟩
  · intro h
    rw [difficultyAdjustment, if_pos h]
  · intro h1 h2
    rw [difficultyAdjustment, if_neg (not_lt.mpr h2), if_pos h1]
  · intro h1 h2
    rw [difficultyAdjustment, if_neg (not_lt.mpr (by linarith)),
      if_neg (not_le.mpr h2), if_pos h1]
  · intro h1 h2
    rw [difficultyAdjustment, if_neg (not_lt.mpr (by linarith)),
      if_neg (not_le.mpr (by linarith)), if_neg (not_le.mpr h2), if_pos h1]
  · intro h
    rw [difficultyAdjustment, if_neg (not_lt.mpr (by linarith)),
      if_neg (not_le.mpr (by linarith)), if_neg (not_le.mpr (by linarith)),
      if_neg (not_le.mpr h)]
  · norm_num [difficultyAdjustment]
  · norm_num [difficultyAdjustment]
  · norm_num [difficultyAdjustment]
  · norm_num [difficultyAdjustment]
  · norm_num [difficultyAdjustment]

/-- Witness for C1: each band instantiated at a concrete rate. -/
theorem difficultyAdjustment_bands_witness :
    difficultyAdjustment 90 = 1 ∧ difficultyAdjustment 70 = 0
    ∧ difficultyAdjustment 50 = -1 ∧ difficultyAdjustment 30 = -2
    ∧ difficultyAdjustment 10 = -3 :=
  ⟨(difficultyAdjustment_bands.1 90).1 (by norm_num),
   (difficultyAdjustment_bands.1 70).2.1 (by norm_num) (by norm_num),
   (difficultyAdjustment_bands.1 50).2.2.1 (by norm_num) (by norm_num),
   (difficultyAdjustment_bands.1 30).2.2.2.1 (by norm_num) (by norm_num),
   (difficultyAdjustment_bands.1 10).2.2.2.2 (by norm_num)⟩

/-! ## Claim C2: the two per-question overrides -/

/-- C2: the individual adjustment equals the session base adjustment except in
exactly two mutually exclusive override cases: a correct answer with rate ≤ 60
forces 0, an incorrect answer with rate ≥ 80 forces -1; the overrides cannot
both apply since they require opposite correctness. -/
theorem individualAdjustment_overrides :
    ∀ (rate : ℚ) (c : Bool),
      (c = true → rate ≤ 60 → individualAdjustment rate c = 0)
      ∧ (c = false → 80 ≤ rate → individualAdjustment rate c = -1)
      ∧ (¬(c = true ∧ rate ≤ 60) → ¬(c = false ∧ 80 ≤ rate) →
          individualAdjustment rate c = difficultyAdjustment rate)
      ∧ ¬((c = true ∧ rate ≤ 60) ∧ (c = false ∧ 80 ≤ rate)) := by
  intro rate c
  refine ⟨?_, ?_, ?_, ?_⟩
  · intro hc hr
    simp [individualAdjustment, hc, hr]
  · intro hc hr
    have hne : ¬(c = true ∧ rate ≤ 60) := by simp [hc]
    simp only [individualAdjustment, if_neg hne]
    simp [hc, ge_iff_le, hr]
  · intro h1 h2
    simp only [individualAdjustment, if_neg h1]
    rw [if_neg]
    intro hx
    exact h2 ⟨hx.1, hx.2⟩
  · rintro ⟨⟨h1, -⟩, ⟨h2, -⟩⟩
    rw [h1] at h2
    exact Bool.noConfusion h2

/-- Witness for C2: a correct answer in a 50%-accuracy session is forced to 0,
an incorrect answer in a 90%-accuracy session is forced to -1, an incorrect
answer at 50% keeps the base adjustment. -/
theorem individualAdjustment_overrides_witness :
    individualAdjustment 50 true = 0
    ∧ individualAdjustment 90 false = -1
    ∧ individualAdjustment 50 false = difficultyAdjustment 50 :=
  ⟨(individualAdjustment_overrides 50 true).1 rfl (by norm_num),
   (individualAdjustment_overrides 90 false).2.1 rfl (by norm_num),
   (individualAdjustment_overrides 50 false).2.2.1 (by simp)
     (by rintro ⟨-, h⟩; norm_num at h)⟩

/-! ## Claim C3: the value written back -/

/-- C3: for every processed entry whose store read succeeds, the value passed
to the store write is `clamp(current + individualAdjustment, 1, 5)` when the
current difficulty is present and `clamp(3 + individualAdjustment, 1, 5)` when
it is absent; a question with no prior difficulty and individual adjustment 0
ends at difficulty 3. -/
theorem writtenDifficulty_formula :
    ∀ (env : Env) (rate : ℚ) (st : EngineState) (q : Entry) (qid : String) (c : Bool),
      q.questionId = some qid → q.isCorrect = some c → env.readFails qid = false →
      (∃ tail,
        (processEntry env rate st q).events
          = st.events
            ++ Event.storeRead qid
              :: Event.storeWrite qid
                  (writtenDifficulty (st.store qid) (individualAdjustment rate c))
              :: tail)
      ∧ (∀ d adj : ℤ, writtenDifficulty (some d) adj = some (max 1 (min 5 (d + adj))))
      ∧ (∀ adj : ℤ, writtenDifficulty none adj = some (max 1 (min 5 (3 + adj))))
      ∧ writtenDifficulty none 0 = some 3 := by
  intro env rate st q qid c hq hc hr
  refine ⟨?_, ?_, ?_, ?_⟩
  · rcases q with ⟨oq, oc⟩
    cases hq
    cases hc
    cases hw : env.writeFails qid
    · exact ⟨[Event.logUpdated qid], by simp [processEntry, hr, hw]⟩
    · exact ⟨[Event.logWarnWrite qid], by simp [processEntry, hr, hw]⟩
  · intro d adj
    rw [writtenDifficulty, clampDifficulty_eq_clamp]
  · intro adj
    rw [writtenDifficulty, clampDifficulty_eq_clamp]
  · rfl

/-- Witness for C3: a concrete entry with no failure injection, read of an
absent difficulty, in a 100%-accuracy session (adjustment +1), written back as 4. -/
theorem writtenDifficulty_formula_witness :
    (∃ tail,
      (processEntry ⟨fun _ => false, fun _ => false⟩ 100
          ⟨fun _ => none, []⟩ ⟨some "q1", some true⟩).events
        = ([] : List Event)
          ++ Event.storeRead "q1"
            :: Event.storeWrite "q1"
                (writtenDifficulty ((fun _ => (none : Option ℤ)) "q1")
                  (individualAdjustment 100 true))
            :: tail)
    ∧ (∀ d adj : ℤ, writtenDifficulty (some d) adj = some (max 1 (min 5 (d + adj))))
    ∧ (∀ adj : ℤ, writtenDifficulty none adj = some (max 1 (min 5 (3 + adj))))
    ∧ writtenDifficulty none 0 = some 3 :=
  writtenDifficulty_formula ⟨fun _ => false, fun _ => false⟩ 100
    ⟨fun _ => none, []⟩ ⟨some "q1", some true⟩ "q1" true rfl rfl rfl

/-! ## Claim C4: the clamp keeps difficulties in [1,5] -/

/-- C4: for every current difficulty in [1,5] and every individual adjustment
in [-3,+1] the written difficulty is in [1,5]; consequently, a question whose
difficulty is set and in [1,5] before an adjustment pass is still set and in
[1,5] after it. -/
theorem difficulty_range_invariant :
    (∀ d adj : ℤ, 1 ≤ d → d ≤ 5 → -3 ≤ adj → adj ≤ 1 →
      ∃ v, writtenDifficulty (some d) adj = some v ∧ 1 ≤ v ∧ v ≤ 5)
    ∧ (∀ (env : Env) (s : PracticeSession) (store0 : String → Option ℤ)
        (r : EngineState),
        updateQuestionDifficulties env s store0 = Except.ok r →
        ∀ (q : String) (d0 : ℤ), store0 q = some d0 → 1 ≤ d0 → d0 ≤ 5 →
        ∃ d, r.store q = some d ∧ 1 ≤ d ∧ d ≤ 5) := by
  constructor
  · intro d adj _ _ _ _
    exact writtenDifficulty_range (some d) adj
  · intro env s store0 r hok q d0 hq h1 h5
    rcases updateQuestionDifficulties_ok env s store0 r hok with ⟨-, hr⟩ | ⟨-, l, -, hr⟩
    · subst hr
      exact ⟨d0, hq, h1, h5⟩
    · subst hr
      rw [foldl_processEntry_store]
      rcases foldl_stepStore_range env (accuracyRate s) l (fun q2 => store0 q2) q with h | h
      · rw [h]
        exact ⟨d0, hq, h1, h5⟩
      · exact h

/-- Witness for C4: difficulty 5 with adjustment +1 clamps to 5, and a
one-question 100%-accuracy run keeps a stored difficulty of 5 set and in
range. -/
theorem difficulty_range_invariant_witness :
    (∃ v, writtenDifficulty (some 5) 1 = some v ∧ 1 ≤ v ∧ v ≤ 5)
    ∧ ∃ d, (List.foldl
        (processEntry ⟨fun _ => false, fun _ => false⟩
          (accuracyRate ⟨1, 1, some [⟨some "q1", some true⟩]⟩))
        ⟨fun _ => some 5, [Event.logInfo]⟩
        [⟨some "q1", some true⟩]).store "q1" = some d ∧ 1 ≤ d ∧ d ≤ 5 :=
  ⟨difficulty_range_invariant.1 5 1 (by decide) (by decide) (by decide) (by decide),
   difficulty_range_invariant.2 ⟨fun _ => false, fun _ => false⟩
     ⟨1, 1, some [⟨some "q1", some true⟩]⟩ (fun _ => some 5) _ rfl
     "q1" 5 rfl (by decide) (by decide)⟩

/-! ## Claim C5: zero-question short-circuit -/

/-- C5: a session with `totalQuestions == 0` performs no work: the engine
returns immediately with the store unchanged and an empty event trace (zero
store reads, zero store writes, zero log entries), even when the per-question
payload is malformed. -/
theorem zeroQuestions_shortCircuit :
    ∀ (env : Env) (s : PracticeSession) (store0 : String → Option ℤ),
      s.totalQuestions = 0 →
      updateQuestionDifficulties env s store0 = Except.ok ⟨store0, []⟩ := by
  intro env s store0 h
  rw [updateQuestionDifficulties, if_pos h]

/-- Witness for C5: a zero-question session with an unparseable payload. -/
theorem zeroQuestions_shortCircuit_witness :
    updateQuestionDifficulties ⟨fun _ => false, fun _ => false⟩
        ⟨0, 0, none⟩ (fun _ => some 2)
      = Except.ok ⟨fun _ => some 2, []⟩ :=
  zeroQuestions_shortCircuit ⟨fun _ => false, fun _ => false⟩ ⟨0, 0, none⟩
    (fun _ => some 2) rfl

/-! ## Claim C7: the save flow can panic before persisting the session -/

/-- C7 (code bug): the claim's propagation policy — the engine's parse failure
is absorbed by logging and the session row is still persisted regardless — is
violated by the code on a `questions` payload that is present but not an array
of JSON objects. There the engine's error is indeed only logged, but
`AddWrongQuestionsFromSession`'s unchecked type assertions then panic before
`db.CreatePracticeSession`, so the session record is not persisted. This
theorem evaluates the model at the failing inputs: a non-array payload and an
array with a non-object element panic with no persist event and the engine
warning as the only trace, while an absent payload (engine parse equally
failing) does reach the persist, isolating the panic as what blocks
submission. -/
theorem save_panics_on_malformed_payload :
    updateQuestionDifficulties ⟨fun _ => false, fun _ => false⟩
        (toPracticeSession ⟨3, 2, QuestionsPayload.nonArray⟩) (fun _ => some 2)
      = Except.error "failed to parse session details"
    ∧ (SavePracticeSession ⟨fun _ => false, fun _ => false⟩
        ⟨3, 2, QuestionsPayload.nonArray⟩ (fun _ => some 2)).panicked = true
    ∧ (SavePracticeSession ⟨fun _ => false, fun _ => false⟩
        ⟨3, 2, QuestionsPayload.nonArray⟩ (fun _ => some 2)).state.events
        = [Event.logWarnEngine]
    ∧ Event.sessionPersist ∉
        (SavePracticeSession ⟨fun _ => false, fun _ => false⟩
          ⟨3, 2, QuestionsPayload.nonArray⟩ (fun _ => some 2)).state.events
    ∧ (SavePracticeSession ⟨fun _ => false, fun _ => false⟩
        ⟨3, 2, QuestionsPayload.array [QElem.nonObject]⟩
        (fun _ => some 2)).panicked = true
    ∧ (SavePracticeSession ⟨fun _ => false, fun _ => false⟩
        ⟨3, 2, QuestionsPayload.absent⟩ (fun _ => some 2)).panicked = false
    ∧ (SavePracticeSession ⟨fun _ => false, fun _ => false⟩
        ⟨3, 2, QuestionsPayload.absent⟩ (fun _ => some 2)).state.events
        = [Event.logWarnEngine, Event.sessionPersist] :=
  ⟨rfl, rfl, rfl, by decide, rfl, rfl, rfl⟩

/-! ## Claim C9: ordering of store mutation versus session persistence -/

/-- Events that interact with the difficulty store. -/
def isStoreOp : Event → Bool
  | Event.storeRead _ => true
  | Event.storeWrite _ _ => true
  | _ => false

/-- The ordering the claim asserts: every session-persist event comes before
every difficulty store read or write. -/
def persistPrecedesStoreOps (tr : List Event) : Prop :=
  ∀ i j : Fin tr.length, isStoreOp (tr.get i) = true →
    tr.get j = Event.sessionPersist → (j : ℕ) < (i : ℕ)

/-- The ordering the code actually has: every difficulty store read or write
comes before every session-persist event. -/
def storeOpsPrecedePersist (tr : List Event) : Prop :=
  ∀ i j : Fin tr.length, isStoreOp (tr.get i) = true →
    tr.get j = Event.sessionPersist → (i : ℕ) < (j : ℕ)

lemma sessionPersist_not_in_processEntry (env : Env) (rate : ℚ)
    (st : EngineState) (q : Entry) :
    Event.sessionPersist ∉ st.events →
    Event.sessionPersist ∉ (processEntry env rate st q).events := by
  intro h
  rcases q with ⟨oq, oc⟩
  cases oq with
  | none => exact h
  | some qid =>
    cases oc with
    | none => exact h
    | some c =>
      cases hr : env.readFails qid <;> cases hw : env.writeFails qid <;>
        simp [processEntry, hr, hw, List.mem_append] <;> exact h

lemma sessionPersist_not_in_foldl (env : Env) (rate : ℚ) :
    ∀ (l : List Entry) (st : EngineState),
      Event.sessionPersist ∉ st.events →
      Event.sessionPersist ∉ (l.foldl (processEntry env rate) st).events := by
  intro l
  induction l with
  | nil => intro st h; exact h
  | cons e t ih =>
    intro st h
    rw [List.foldl_cons]
    exact ih _ (sessionPersist_not_in_processEntry env rate st e h)

lemma sessionPersist_not_in_update (env : Env) (s : PracticeSession)
    (store0 : String → Option ℤ) (r : EngineState) :
    updateQuestionDifficulties env s store0 = Except.ok r →
    Event.sessionPersist ∉ r.events := by
  intro hok
  rcases updateQuestionDifficulties_ok env s store0 r hok with ⟨-, hr⟩ | ⟨-, l, -, hr⟩
  · subst hr
    simp
  · subst hr
    exact sessionPersist_not_in_foldl env _ l ⟨store0, [Event.logInfo]⟩ (by simp)

lemma storeOpsPrecedePersist_append (evs : List Event)
    (hnp : Event.sessionPersist ∉ evs) :
    storeOpsPrecedePersist (evs ++ [Event.sessionPersist]) := by
  intro i j h1 h2
  have hjlt : (j : ℕ) < evs.length + 1 := by
    have h' := j.isLt
    simpa using h'
  have hilt : (i : ℕ) < evs.length + 1 := by
    have h' := i.isLt
    simpa using h'
  have hj : (j : ℕ) = evs.length := by
    by_contra hne
    have hj2 : (j : ℕ) < evs.length := by omega
    rw [List.get_eq_getElem, List.getElem_append_left hj2] at h2
    exact hnp (h2 ▸ List.getElem_mem hj2)
  have hi : (i : ℕ) < evs.length := by
    by_contra hge
    have hieq : (i : ℕ) = evs.length := by omega
    have hgi : (evs ++ [Event.sessionPersist]).get i = Event.sessionPersist := by
      rw [List.get_eq_getElem, List.getElem_concat_length _ _ _ hieq]
    rw [hgi] at h1
    exact absurd h1 (by simp [isStoreOp])
  omega

lemma storeOpsPrecedePersist_of_not_mem (evs : List Event)
    (hnp : Event.sessionPersist ∉ evs) :
    storeOpsPrecedePersist evs := by
  intro i j h1 h2
  exact absurd (h2 ▸ List.get_mem evs j.1 j.2) hnp

/-- C9 counterexample: in `SavePracticeSession`, the difficulty store is read
and written before the session row is persisted. On a concrete one-question
100%-accuracy session the trace is `[logInfo, storeRead, storeWrite,
logUpdated, sessionPersist]`, so the persist does not precede the store
operations. -/
theorem sessionPersist_order_counterexample :
    ¬ persistPrecedesStoreOps
        (SavePracticeSession ⟨fun _ => false, fun _ => false⟩
          ⟨1, 1, QuestionsPayload.array [QElem.object ⟨some "q1", some true⟩]⟩
          (fun _ => none)).state.events := by
  intro hcl
  have hrate : accuracyRate (toPracticeSession
      ⟨1, 1, QuestionsPayload.array [QElem.object ⟨some "q1", some true⟩]⟩)
      = 100 := by
    norm_num [accuracyRate, toPracticeSession]
  have hupd := updateQuestionDifficulties_some ⟨fun _ => false, fun _ => false⟩
    (toPracticeSession
      ⟨1, 1, QuestionsPayload.array [QElem.object ⟨some "q1", some true⟩]⟩)
    (fun _ => none) [⟨some "q1", some true⟩] (by decide) rfl
  rw [hrate] at hupd
  have htr : (SavePracticeSession ⟨fun _ => false, fun _ => false⟩
      ⟨1, 1, QuestionsPayload.array [QElem.object ⟨some "q1", some true⟩]⟩
      (fun _ => none)).state.events
      = [Event.logInfo, Event.storeRead "q1", Event.storeWrite "q1" (some 4),
         Event.logUpdated "q1", Event.sessionPersist] := by
    simp only [SavePracticeSession, hupd]
    decide
  rw [htr] at hcl
  have hlt := hcl ⟨1, by decide⟩ ⟨4, by decide⟩ (by decide) (by decide)
  simp at hlt

/-- C9 amended: the session row is persisted only after the adjustment pass;
every difficulty store read and write of a save precedes the session-persist
event, not the other way around (on a panicking save there is no persist event
at all). -/
theorem storeOps_precede_sessionPersist :
    ∀ (env : Env) (data : SessionData) (store0 : String → Option ℤ),
      storeOpsPrecedePersist (SavePracticeSession env data store0).state.events := by
  intro env data store0
  cases h : updateQuestionDifficulties env (toPracticeSession data) store0 with
  | ok r =>
    have hnp := sessionPersist_not_in_update env (toPracticeSession data) store0 r h
    cases hp : addWrongQuestionsPanics data.questions <;>
      simp only [SavePracticeSession, h, hp, Bool.false_eq_true, if_false,
        if_true, reduceIte]
    · exact storeOpsPrecedePersist_append r.events hnp
    · exact storeOpsPrecedePersist_of_not_mem r.events hnp
  | error e =>
    cases hp : addWrongQuestionsPanics data.questions <;>
      simp only [SavePracticeSession, h, hp, Bool.false_eq_true, if_false,
        if_true, reduceIte]
    · exact storeOpsPrecedePersist_append [Event.logWarnEngine] (by simp)
    · exact storeOpsPrecedePersist_of_not_mem [Event.logWarnEngine] (by simp)

/-- Witness for C9 amended: in the concrete one-question trace, the store
write (index 2) precedes the session persist (index 4). -/
theorem storeOps_precede_sessionPersist_witness :
    ((2 : ℕ) < (4 : ℕ)) :=
  storeOps_precede_sessionPersist ⟨fun _ => false, fun _ => false⟩
    ⟨1, 1, QuestionsPayload.array [QElem.object ⟨some "q1", some true⟩]⟩
    (fun _ => none)
    ⟨2, by decide⟩ ⟨4, by decide⟩ (by decide) (by decide)

/-! ## Claim C6: per-item failure isolation -/

/-- The conditions under which the loop skips an entry without mutating the
store: malformed fields, a failing store read, or a failing store write. -/
def entrySkipped (env : Env) (q : Entry) : Prop :=
  q.questionId = none ∨ q.isCorrect = none
  ∨ ∃ qid, q.questionId = some qid
      ∧ (env.readFails qid = true ∨ env.writeFails qid = true)

lemma stepStore_skip (env : Env) (rate : ℚ) (σ : String → Option ℤ) (q : Entry)
    (h : entrySkipped env q) : stepStore env rate σ q = σ := by
  rcases q with ⟨oq, oc⟩
  cases oq with
  | none => rfl
  | some qid =>
    cases oc with
    | none => rfl
    | some c =>
      rcases h with h | h | ⟨qid2, hq, h⟩
      · exact absurd h (by simp)
      · exact absurd h (by simp)
      · rcases Option.some.inj hq with rfl
        rcases h with h | h
        · simp [stepStore, h]
        · simp [stepStore, h]

lemma foldl_stepStore_skip (env : Env) (rate : ℚ) (l₁ l₂ : List Entry) (e : Entry)
    (h : entrySkipped env e) (σ : String → Option ℤ) :
    (l₁ ++ e :: l₂).foldl (stepStore env rate) σ
      = (l₁ ++ l₂).foldl (stepStore env rate) σ := by
  rw [List.foldl_append, List.foldl_append, List.foldl_cons,
    stepStore_skip env rate _ e h]

/-- C6: per-item failure isolation. An entry whose `questionId` is not a
string or whose `isCorrect` is not a boolean is skipped leaving the state
untouched; an entry whose store read or store write fails leaves the store as
if the entry were absent, with every other entry still adjusted identically;
and whenever the details payload parses, the engine never returns an error,
whatever per-entry failures occur. -/
theorem perEntry_failure_isolation :
    (∀ (env : Env) (rate : ℚ) (st : EngineState) (q : Entry),
      q.questionId = none ∨ q.isCorrect = none → processEntry env rate st q = st)
    ∧ (∀ (env : Env) (s1 s2 : PracticeSession) (store0 : String → Option ℤ)
        (l₁ l₂ : List Entry) (e : Entry) (r₁ r₂ : EngineState),
        s1.totalQuestions = s2.totalQuestions → s1.correctCount = s2.correctCount →
        s1.details = some (l₁ ++ e :: l₂) → s2.details = some (l₁ ++ l₂) →
        entrySkipped env e →
        updateQuestionDifficulties env s1 store0 = Except.ok r₁ →
        updateQuestionDifficulties env s2 store0 = Except.ok r₂ →
        r₁.store = r₂.store)
    ∧ (∀ (env : Env) (s : PracticeSession) (store0 : String → Option ℤ)
        (l : List Entry), s.details = some l →
        ∃ r, updateQuestionDifficulties env s store0 = Except.ok r) := by
  refine ⟨?_, ?_, ?_⟩
  · intro env rate st q h
    rcases q with ⟨oq, oc⟩
    rcases h with h | h
    · cases h
      rfl
    · cases h
      cases oq <;> rfl
  · intro env s1 s2 store0 l₁ l₂ e r₁ r₂ htq hcc hd1 hd2 hskip hok1 hok2
    have hacc : accuracyRate s1 = accuracyRate s2 := by
      rw [accuracyRate, accuracyRate, htq, hcc]
    by_cases h0 : s1.totalQuestions = 0
    · rw [updateQuestionDifficulties, if_pos h0] at hok1
      rw [updateQuestionDifficulties, if_pos (htq ▸ h0)] at hok2
      rw [← Except.ok.inj hok1, ← Except.ok.inj hok2]
    · have h02 : ¬s2.totalQuestions = 0 := htq ▸ h0
      have he1 := updateQuestionDifficulties_some env s1 store0 _ h0 hd1
      have he2 := updateQuestionDifficulties_some env s2 store0 _ h02 hd2
      rw [hok1] at he1
      rw [hok2] at he2
      rw [Except.ok.inj he1, Except.ok.inj he2]
      rw [foldl_processEntry_store, foldl_processEntry_store, hacc,
        foldl_stepStore_skip env (accuracyRate s2) l₁ l₂ e hskip]
  · intro env s store0 l hd
    by_cases h0 : s.totalQuestions = 0
    · exact ⟨_, by rw [updateQuestionDifficulties, if_pos h0]⟩
    · exact ⟨_, updateQuestionDifficulties_some env s store0 l h0 hd⟩

/-- Witness for C6: a malformed middle entry in a three-entry sequence leaves
the fold state untouched at that entry, removing it leaves the final store
unchanged, and the engine still returns `ok`. -/
theorem perEntry_failure_isolation_witness :
    (processEntry ⟨fun _ => false, fun _ => false⟩ 50
        ⟨fun _ => some 3, []⟩ ⟨none, some true⟩ = ⟨fun _ => some 3, []⟩)
    ∧ ((List.foldl
          (processEntry ⟨fun _ => false, fun _ => false⟩
            (accuracyRate ⟨3, 2, some [⟨some "a", some true⟩, ⟨none, some true⟩,
              ⟨some "b", some false⟩]⟩))
          ⟨fun _ => some 3, [Event.logInfo]⟩
          [⟨some "a", some true⟩, ⟨none, some true⟩, ⟨some "b", some false⟩]).store
        = (List.foldl
          (processEntry ⟨fun _ => false, fun _ => false⟩
            (accuracyRate ⟨3, 2, some [⟨some "a", some true⟩, ⟨some "b", some false⟩]⟩))
          ⟨fun _ => some 3, [Event.logInfo]⟩
          [⟨some "a", some true⟩, ⟨some "b", some false⟩]).store)
    ∧ ∃ r, updateQuestionDifficulties ⟨fun _ => false, fun _ => false⟩
        ⟨3, 2, some [⟨some "a", some true⟩, ⟨none, some true⟩, ⟨some "b", some false⟩]⟩
        (fun _ => some 3) = Except.ok r :=
  ⟨perEntry_failure_isolation.1 ⟨fun _ => false, fun _ => false⟩ 50
      ⟨fun _ => some 3, []⟩ ⟨none, some true⟩ (Or.inl rfl),
   perEntry_failure_isolation.2.1 ⟨fun _ => false, fun _ => false⟩
      ⟨3, 2, some [⟨some "a", some true⟩, ⟨none, some true⟩, ⟨some "b", some false⟩]⟩
      ⟨3, 2, some [⟨some "a", some true⟩, ⟨some "b", some false⟩]⟩
      (fun _ => some 3)
      [⟨some "a", some true⟩] [⟨some "b", some false⟩] ⟨none, some true⟩ _ _
      rfl rfl rfl rfl (Or.inl rfl)
      (updateQuestionDifficulties_some _ _ _ _ (by norm_num) rfl)
      (updateQuestionDifficulties_some _ _ _ _ (by norm_num) rfl),
   perEntry_failure_isolation.2.2 ⟨fun _ => false, fun _ => false⟩
      ⟨3, 2, some [⟨some "a", some true⟩, ⟨none, some true⟩, ⟨some "b", some false⟩]⟩
      (fun _ => some 3) _ rfl⟩

/-! ## Claim C8: order-independence between questions -/

/-- The question id of an entry that the loop fully processes (both fields
well-typed); `none` for entries skipped as malformed. -/
def entryKey (q : Entry) : Option String :=
  match q.questionId, q.isCorrect with
  | some qid, some _ => some qid
  | _, _ => none

/-- The question ids of the well-typed entries of a sequence, in order. -/
def validKeys (l : List Entry) : List String := l.filterMap entryKey

lemma stepStore_comm (env : Env) (rate : ℚ) (σ : String → Option ℤ) (a b : Entry)
    (h : ∀ ka kb, entryKey a = some ka → entryKey b = some kb → ka ≠ kb) :
    stepStore env rate (stepStore env rate σ a) b
      = stepStore env rate (stepStore env rate σ b) a := by
  rcases a with ⟨oqa, oca⟩
  rcases b with ⟨oqb, ocb⟩
  cases oqa with
  | none => rfl
  | some ka =>
  cases oca with
  | none => rfl
  | some ca =>
  cases oqb with
  | none => rfl
  | some kb =>
  cases ocb with
  | none => rfl
  | some cb =>
  have hne : ka ≠ kb := h ka kb rfl rfl
  simp only [stepStore]
  cases hra : env.readFails ka <;> cases hrb : env.readFails kb <;>
    cases hwa : env.writeFails ka <;> cases hwb : env.writeFails kb <;>
      simp only [hra, hrb, hwa, hwb, Bool.false_eq_true, if_false, if_true,
        reduceIte]
  all_goals
    funext q2
  all_goals
    by_cases hqa : q2 = ka <;> by_cases hqb : q2 = kb <;>
      simp [hqa, hqb, hne, Ne.symm hne]

lemma foldl_stepStore_perm (env : Env) (rate : ℚ) :
    ∀ {l₁ l₂ : List Entry}, l₁.Perm l₂ → (validKeys l₁).Nodup →
      ∀ σ, l₁.foldl (stepStore env rate) σ = l₂.foldl (stepStore env rate) σ := by
  intro l₁ l₂ hp
  induction hp with
  | nil => intro _ σ; rfl
  | cons x hp ih =>
    intro hnd σ
    rw [List.foldl_cons, List.foldl_cons]
    refine ih ?_ _
    cases hk : entryKey x with
    | none => rwa [validKeys, List.filterMap_cons_none hk] at hnd
    | some k =>
      rw [validKeys, List.filterMap_cons_some hk] at hnd
      exact (List.nodup_cons.mp hnd).2
  | swap x y l =>
    intro hnd σ
    rw [List.foldl_cons, List.foldl_cons, List.foldl_cons, List.foldl_cons,
      stepStore_comm env rate σ y x ?_]
    intro ky kx hky hkx
    have hnd2 : (ky :: validKeys (x :: l)).Nodup := by
      rwa [validKeys, List.filterMap_cons_some hky] at hnd
    have hmem : kx ∈ validKeys (x :: l) := by
      rw [validKeys, List.filterMap_cons_some hkx]
      exact List.mem_cons_self _ _
    exact fun he => (List.nodup_cons.mp hnd2).1 (he ▸ hmem)
  | trans hp₁ hp₂ ih₁ ih₂ =>
    intro hnd σ
    rw [ih₁ hnd σ]
    exact ih₂ (List.Nodup.perm hnd (hp₁.filterMap entryKey)) σ

/-- C8 counterexample: with a duplicated `questionId` in the sequence, the
two orders of the same multiset of entries leave different final difficulties.
A 90%-accuracy session adjusts a correct answer by +1 and an incorrect one by
-1; starting from difficulty 5, order correct-then-incorrect ends at 4
(clamp at 5 loses the +1) while incorrect-then-correct ends at 5. -/
theorem adjustment_order_counterexample :
    ([(⟨some "q1", some true⟩ : Entry), ⟨some "q1", some false⟩].Perm
      [⟨some "q1", some false⟩, ⟨some "q1", some true⟩])
    ∧ updateQuestionDifficulties ⟨fun _ => false, fun _ => false⟩
        ⟨10, 9, some [⟨some "q1", some true⟩, ⟨some "q1", some false⟩]⟩
        (fun _ => some 5)
        = Except.ok (List.foldl
            (processEntry ⟨fun _ => false, fun _ => false⟩ 90)
            ⟨fun _ => some 5, [Event.logInfo]⟩
            [⟨some "q1", some true⟩, ⟨some "q1", some false⟩])
    ∧ updateQuestionDifficulties ⟨fun _ => false, fun _ => false⟩
        ⟨10, 9, some [⟨some "q1", some false⟩, ⟨some "q1", some true⟩]⟩
        (fun _ => some 5)
        = Except.ok (List.foldl
            (processEntry ⟨fun _ => false, fun _ => false⟩ 90)
            ⟨fun _ => some 5, [Event.logInfo]⟩
            [⟨some "q1", some false⟩, ⟨some "q1", some true⟩])
    ∧ (List.foldl (processEntry ⟨fun _ => false, fun _ => false⟩ 90)
        ⟨fun _ => some 5, [Event.logInfo]⟩
        [⟨some "q1", some true⟩, ⟨some "q1", some false⟩]).store "q1" = some 4
    ∧ (List.foldl (processEntry ⟨fun _ => false, fun _ => false⟩ 90)
        ⟨fun _ => some 5, [Event.logInfo]⟩
        [⟨some "q1", some false⟩, ⟨some "q1", some true⟩]).store "q1" = some 5 := by
  refine ⟨List.Perm.swap _ _ _, ?_, ?_, by decide, by decide⟩
  · have h := updateQuestionDifficulties_some ⟨fun _ => false, fun _ => false⟩
      ⟨10, 9, some [⟨some "q1", some true⟩, ⟨some "q1", some false⟩]⟩
      (fun _ => some 5) [⟨some "q1", some true⟩, ⟨some "q1", some false⟩]
      (by norm_num) rfl
    rwa [show accuracyRate ⟨10, 9, some [⟨some "q1", some true⟩,
      ⟨some "q1", some false⟩]⟩ = 90 from by norm_num [accuracyRate]] at h
  · have h := updateQuestionDifficulties_some ⟨fun _ => false, fun _ => false⟩
      ⟨10, 9, some [⟨some "q1", some false⟩, ⟨some "q1", some true⟩]⟩
      (fun _ => some 5) [⟨some "q1", some false⟩, ⟨some "q1", some true⟩]
      (by norm_num) rfl
    rwa [show accuracyRate ⟨10, 9, some [⟨some "q1", some false⟩,
      ⟨some "q1", some true⟩]⟩ = 90 from by norm_num [accuracyRate]] at h

/-- C8 amended: for sessions that are equal except for the order of their
per-question sequences, and whose well-typed entries reference pairwise
distinct question ids, the engine leaves the same final store whatever the
permutation. (The distinctness hypothesis is forced by the counterexample: a
duplicated id makes the clamped read-modify-writes non-commutative.) -/
theorem adjustments_order_independent :
    ∀ (env : Env) (s1 s2 : PracticeSession) (store0 : String → Option ℤ)
      (l₁ l₂ : List Entry) (r₁ r₂ : EngineState),
      s1.totalQuestions = s2.totalQuestions → s1.correctCount = s2.correctCount →
      s1.details = some l₁ → s2.details = some l₂ →
      l₁.Perm l₂ → (validKeys l₁).Nodup →
      updateQuestionDifficulties env s1 store0 = Except.ok r₁ →
      updateQuestionDifficulties env s2 store0 = Except.ok r₂ →
      r₁.store = r₂.store := by
  intro env s1 s2 store0 l₁ l₂ r₁ r₂ htq hcc hd1 hd2 hperm hnd hok1 hok2
  have hacc : accuracyRate s1 = accuracyRate s2 := by
    rw [accuracyRate, accuracyRate, htq, hcc]
  by_cases h0 : s1.totalQuestions = 0
  · rw [updateQuestionDifficulties, if_pos h0] at hok1
    rw [updateQuestionDifficulties, if_pos (htq ▸ h0)] at hok2
    rw [← Except.ok.inj hok1, ← Except.ok.inj hok2]
  · have h02 : ¬s2.totalQuestions = 0 := htq ▸ h0
    have he1 := updateQuestionDifficulties_some env s1 store0 _ h0 hd1
    have he2 := updateQuestionDifficulties_some env s2 store0 _ h02 hd2
    rw [hok1] at he1
    rw [hok2] at he2
    rw [Except.ok.inj he1, Except.ok.inj he2]
    rw [foldl_processEntry_store, foldl_processEntry_store, hacc]
    exact foldl_stepStore_perm env (accuracyRate s2) hperm hnd _

/-- Witness for C8 amended: a two-question session with distinct ids gives
the same store under both orders. -/
theorem adjustments_order_independent_witness :
    (List.foldl
      (processEntry ⟨fun _ => false, fun _ => false⟩
        (accuracyRate ⟨2, 1, some [⟨some "a", some true⟩, ⟨some "b", some false⟩]⟩))
      ⟨fun _ => some 3, [Event.logInfo]⟩
      [⟨some "a", some true⟩, ⟨some "b", some false⟩]).store
    = (List.foldl
      (processEntry ⟨fun _ => false, fun _ => false⟩
        (accuracyRate ⟨2, 1, some [⟨some "b", some false⟩, ⟨some "a", some true⟩]⟩))
      ⟨fun _ => some 3, [Event.logInfo]⟩
      [⟨some "b", some false⟩, ⟨some "a", some true⟩]).store :=
  adjustments_order_independent ⟨fun _ => false, fun _ => false⟩
    ⟨2, 1, some [⟨some "a", some true⟩, ⟨some "b", some false⟩]⟩
    ⟨2, 1, some [⟨some "b", some false⟩, ⟨some "a", some true⟩]⟩
    (fun _ => some 3)
    [⟨some "a", some true⟩, ⟨some "b", some false⟩]
    [⟨some "b", some false⟩, ⟨some "a", some true⟩] _ _
    rfl rfl rfl rfl
    (List.Perm.swap (⟨some "b", some false⟩ : Entry) (⟨some "a", some true⟩ : Entry) [])
    (by decide)
    (updateQuestionDifficulties_some _ _ _ _ (by norm_num) rfl)
    (updateQuestionDifficulties_some _ _ _ _ (by norm_num) rfl)

/-! ## Claim C10: every write is a present, in-range difficulty -/

lemma storeWrite_in_processEntry (env : Env) (rate : ℚ) (st : EngineState)
    (q : Entry) (qid : String) (v : Option ℤ) :
    Event.storeWrite qid v ∈ (processEntry env rate st q).events →
    Event.storeWrite qid v ∈ st.events ∨ ∃ w, v = some w ∧ 1 ≤ w ∧ w ≤ 5 := by
  rcases q with ⟨oq, oc⟩
  cases oq with
  | none => exact Or.inl
  | some qid2 =>
    cases oc with
    | none => exact Or.inl
    | some c =>
      cases hr : env.readFails qid2 <;> cases hw : env.writeFails qid2 <;>
        simp only [processEntry, hr, hw, Bool.false_eq_true, if_false, if_true,
          reduceIte, List.mem_append, List.mem_cons,
          List.mem_singleton, List.not_mem_nil, or_false] <;>
        intro h
      · rcases h with h | h | h | h
        · exact Or.inl h
        · exact absurd h (by simp)
        · have hv := (Event.storeWrite.inj h).2
          right
          obtain ⟨w, hw2, h1, h5⟩ := writtenDifficulty_range (st.store qid2)
            (individualAdjustment rate c)
          exact ⟨w, hv ▸ hw2, h1, h5⟩
        · exact absurd h (by simp)
      · rcases h with h | h | h | h
        · exact Or.inl h
        · exact absurd h (by simp)
        · have hv := (Event.storeWrite.inj h).2
          right
          obtain ⟨w, hw2, h1, h5⟩ := writtenDifficulty_range (st.store qid2)
            (individualAdjustment rate c)
          exact ⟨w, hv ▸ hw2, h1, h5⟩
        · exact absurd h (by simp)
      · rcases h with h | h | h
        · exact Or.inl h
        · exact absurd h (by simp)
        · exact absurd h (by simp)
      · rcases h with h | h | h
        · exact Or.inl h
        · exact absurd h (by simp)
        · exact absurd h (by simp)

lemma storeWrite_in_foldl (env : Env) (rate : ℚ) :
    ∀ (l : List Entry) (st : EngineState) (qid : String) (v : Option ℤ),
      Event.storeWrite qid v ∈ (l.foldl (processEntry env rate) st).events →
      Event.storeWrite qid v ∈ st.events ∨ ∃ w, v = some w ∧ 1 ≤ w ∧ w ≤ 5 := by
  intro l
  induction l with
  | nil => intro st qid v h; exact Or.inl h
  | cons e t ih =>
    intro st qid v h
    rw [List.foldl_cons] at h
    rcases ih (processEntry env rate st e) qid v h with h2 | h2
    · exact storeWrite_in_processEntry env rate st e qid v h2
    · exact Or.inr h2

/-- C10: every difficulty write the engine performs passes a present value in
[1,5], whatever the prior stored state (absent, or corrupt values such as 0 or
7); and every question the engine touches ends with a set, in-range
difficulty — the store after a successful run maps each id either to its old
value or to a present value in [1,5]. -/
theorem writes_always_present_in_range :
    ∀ (env : Env) (s : PracticeSession) (store0 : String → Option ℤ)
      (r : EngineState),
      updateQuestionDifficulties env s store0 = Except.ok r →
      (∀ (qid : String) (v : Option ℤ), Event.storeWrite qid v ∈ r.events →
        ∃ w, v = some w ∧ 1 ≤ w ∧ w ≤ 5)
      ∧ (∀ q : String, r.store q = store0 q
          ∨ ∃ w, r.store q = some w ∧ 1 ≤ w ∧ w ≤ 5) := by
  intro env s store0 r hok
  rcases updateQuestionDifficulties_ok env s store0 r hok with ⟨-, hr⟩ | ⟨-, l, -, hr⟩
  · subst hr
    constructor
    · intro qid v h
      exact absurd h (by simp)
    · intro q
      exact Or.inl rfl
  · subst hr
    constructor
    · intro qid v h
      rcases storeWrite_in_foldl env (accuracyRate s) l ⟨store0, [Event.logInfo]⟩
        qid v h with h2 | h2
      · exact absurd h2 (by simp)
      · exact h2
    · intro q
      rw [foldl_processEntry_store]
      exact foldl_stepStore_range env (accuracyRate s) l _ q

/-- Witness for C10: a question with corrupt stored difficulty 7 in a
0%-accuracy session (adjustment -3) is written back as a present value,
clamp(7-3)=4, and ends set and in range. -/
theorem writes_always_present_in_range_witness :
    (∃ w, (some 4 : Option ℤ) = some w ∧ 1 ≤ w ∧ w ≤ 5)
    ∧ ((List.foldl (processEntry ⟨fun _ => false, fun _ => false⟩ 0)
        ⟨fun _ => some 7, [Event.logInfo]⟩ [⟨some "q1", some false⟩]).store "q1"
          = (fun _ => (some 7 : Option ℤ)) "q1"
        ∨ ∃ w, (List.foldl (processEntry ⟨fun _ => false, fun _ => false⟩ 0)
            ⟨fun _ => some 7, [Event.logInfo]⟩ [⟨some "q1", some false⟩]).store "q1"
              = some w ∧ 1 ≤ w ∧ w ≤ 5) := by
  have hrate : accuracyRate ⟨1, 0, some [⟨some "q1", some false⟩]⟩ = 0 := by
    norm_num [accuracyRate]
  have hok := updateQuestionDifficulties_some ⟨fun _ => false, fun _ => false⟩
    ⟨1, 0, some [⟨some "q1", some false⟩]⟩ (fun _ => some 7)
    [⟨some "q1", some false⟩] (by norm_num) rfl
  rw [hrate] at hok
  exact ⟨(writes_always_present_in_range ⟨fun _ => false, fun _ => false⟩
      ⟨1, 0, some [⟨some "q1", some false⟩]⟩ (fun _ => some 7) _ hok).1
      "q1" (some 4) (by decide),
    (writes_always_present_in_range ⟨fun _ => false, fun _ => false⟩
      ⟨1, 0, some [⟨some "q1", some false⟩]⟩ (fun _ => some 7) _ hok).2 "q1"⟩

end ExamMaster
